import Mathlib

/-!
Verification of the URL-to-Telegram relay bot (`main.go`, plus the second
source variant whose file name is unknown, called the "variant" below).

The embedding models:
* `ProgressReader.Read` (main.go lines 29-37): a byte-counting pass-through
  reader; the float64 progress computation is modelled over ℚ.
* the throttled progress closure (main.go lines 126-138): state is the
  `lastUpdate` timestamp, time is ℕ, the interval is 2 units (2 seconds).
* `handleURL` (main.go lines 80-165) and the variant's `handleURL`
  (variant lines 81-157): each is a function from an environment that fixes
  the outcome of every external effect (message send, HEAD, GET, temp-file
  creation, the stream's reads, upload) to the trace of observable actions,
  with Go `defer` semantics made explicit (LIFO at each return).
-/

/-- One result of a `Read` call on the underlying stream: the bytes placed
into the buffer and the error value returned (`none` = nil, `some` = an
error such as EOF). Go returns `(n, err)` with the bytes in the caller's
buffer; here the bytes are carried directly. -/
structure ReadResult where
  data : List Nat
  err : Option String
  deriving Repr, DecidableEq

/-- `ProgressReader.Read` (main.go:29-37), one call. Input: `total`
(`pr.total`), the current `pr.downloaded` counter `d`, and the underlying
stream's result `r`. Output: the result returned to the caller (the same
bytes and the same error, as in the source), the new counter, and the value
passed to `onProgress` (`none` when the `pr.total > 0` guard fails).
`float64(downloaded)/float64(total)*100` is modelled as exact division in ℚ. -/
def prRead (total d : Int) (r : ReadResult) : ReadResult × Int × Option ℚ :=
  let n : Int := r.data.length
  let d' := d + n
  (r, d', if total > 0 then some ((d' : ℚ) / (total : ℚ) * 100) else none)

/-- A whole sequence of reads through the `ProgressReader`: for each
underlying result, the result handed back to the caller paired with the
progress value (if any) passed to the callback on that read. -/
def prRun (total : Int) : Int → List ReadResult → List (ReadResult × Option ℚ)
  | _, [] => []
  | d, r :: rs =>
    let step := prRead total d r
    (step.1, step.2.2) :: prRun total step.2.1 rs

/-- The sequence of values actually passed to `onProgress` over a run. -/
def prCallbacks (total d : Int) (rs : List ReadResult) : List ℚ :=
  (prRun total d rs).filterMap (·.2)

/-- The successive values of `pr.downloaded` after each read. -/
def prCums : Int → List ReadResult → List Int
  | _, [] => []
  | d, r :: rs => (d + r.data.length) :: prCums (d + r.data.length) rs

/-- When the total is positive, every read invokes the callback, with the
value `100 * downloaded / total` at that point. -/
theorem prCallbacks_eq_map (total : Int) (ht : 0 < total) :
    ∀ (d : Int) (rs : List ReadResult),
      prCallbacks total d rs
        = (prCums d rs).map (fun c : ℤ => (c : ℚ) / (total : ℚ) * 100) := by
  intro d rs
  induction rs generalizing d with
  | nil => rfl
  | cons r rs ih =>
      simp only [prCallbacks, prRun, prRead, prCums, List.filterMap_cons,
        List.map_cons, if_pos ht] at *
      exact congrArg _ (ih _)

/-- When the total is not positive (unknown size), no read ever invokes the
callback. -/
theorem prCallbacks_eq_nil (total : Int) (ht : ¬ 0 < total) :
    ∀ (d : Int) (rs : List ReadResult), prCallbacks total d rs = [] := by
  intro d rs
  induction rs generalizing d with
  | nil => rfl
  | cons r rs ih =>
      simp only [prCallbacks, prRun, prRead, List.filterMap_cons, if_neg ht] at *
      exact ih _

/-- Total number of bytes delivered by a sequence of reads, as an `Int`
(matching the `int64` counter in the source). -/
def lenSum (rs : List ReadResult) : Int :=
  (rs.map fun r => (r.data.length : Int)).sum

theorem lenSum_nonneg (rs : List ReadResult) : 0 ≤ lenSum rs := by
  induction rs with
  | nil => simp [lenSum]
  | cons r rs ih =>
      simp only [lenSum, List.map_cons, List.sum_cons] at *
      positivity

theorem prCums_ne_nil (d : Int) (r : ReadResult) (rs : List ReadResult) :
    prCums d (r :: rs) ≠ [] := by
  simp [prCums]

theorem prCums_head_le (d : Int) (rs : List ReadResult) :
    ∀ x ∈ (prCums d rs).head?, d ≤ x := by
  cases rs with
  | nil => simp [prCums]
  | cons r rs =>
      simp only [prCums, List.head?_cons, Option.mem_def, Option.some.injEq]
      rintro x rfl
      omega

/-- The downloaded counter never decreases across reads. -/
theorem prCums_chain (rs : List ReadResult) :
    ∀ d : Int, List.Chain' (· ≤ ·) (prCums d rs) := by
  induction rs with
  | nil => intro d; simp [prCums]
  | cons r rs ih =>
      intro d
      refine List.chain'_cons'.mpr ⟨prCums_head_le _ _, ih _⟩

/-- After the last read of a nonempty sequence, the counter holds the initial
value plus all delivered bytes. -/
theorem prCums_getLast (rs : List ReadResult) :
    ∀ d : Int, rs ≠ [] → (prCums d rs).getLast? = some (d + lenSum rs) := by
  induction rs with
  | nil => intro d h; exact absurd rfl h
  | cons r rs ih =>
      intro d _
      cases rs with
      | nil => simp [prCums, lenSum]
      | cons r' rs' =>
          have hmain := ih (d + (r.data.length : Int)) (by simp)
          simp only [prCums] at hmain ⊢
          rw [List.getLast?_cons_cons]
          rw [hmain]
          simp only [lenSum, List.map_cons, List.sum_cons]
          congr 1
          ring

/-- Every intermediate counter value lies between the initial value and the
initial value plus all delivered bytes. -/
theorem prCums_mem_bounds (rs : List ReadResult) :
    ∀ (d : Int), ∀ c ∈ prCums d rs, d ≤ c ∧ c ≤ d + lenSum rs := by
  induction rs with
  | nil => intro d c hc; simp [prCums] at hc
  | cons r rs ih =>
      intro d c hc
      simp only [prCums, List.mem_cons] at hc
      have hn : (0 : Int) ≤ (r.data.length : Int) := by positivity
      have hrest : (0 : Int) ≤ lenSum rs := lenSum_nonneg rs
      have hsum : lenSum (r :: rs) = (r.data.length : Int) + lenSum rs := by
        simp [lenSum]
      rcases hc with rfl | hc
      · constructor
        · omega
        · omega
      · rcases ih (d + (r.data.length : Int)) c hc with ⟨h1, h2⟩
        constructor
        · omega
        · omega

/-- C4: with a known positive total `T` and reads delivering exactly `T`
bytes in all, the callback values are non-decreasing and the last one is
exactly 100. -/
theorem prog_monotone_and_final
    (total : Int) (rs : List ReadResult)
    (ht : 0 < total) (hsum : lenSum rs = total) :
    List.Pairwise (· ≤ ·) (prCallbacks total 0 rs) ∧
      (prCallbacks total 0 rs).getLast? = some 100 := by
  have hmap := prCallbacks_eq_map total ht 0 rs
  have hrs : rs ≠ [] := by
    intro h
    rw [h] at hsum
    simp [lenSum] at hsum
    omega
  constructor
  · rw [hmap]
    have hchain : List.Chain' (· ≤ ·)
        ((prCums 0 rs).map fun c : ℤ => (c : ℚ) / (total : ℚ) * 100) := by
      rw [List.chain'_map]
      refine (prCums_chain rs 0).imp ?_
      intro a b hab
      have htq : (0 : ℚ) < (total : ℚ) := by exact_mod_cast ht
      have hq : (a : ℚ) ≤ (b : ℚ) := by exact_mod_cast hab
      have hdiv : (a : ℚ) / (total : ℚ) ≤ (b : ℚ) / (total : ℚ) :=
        (div_le_div_iff_of_pos_right htq).mpr hq
      exact mul_le_mul_of_nonneg_right hdiv (by norm_num)
    exact List.chain'_iff_pairwise.mp hchain
  · rw [hmap]
    rw [List.getLast?_map]
    rw [prCums_getLast rs 0 hrs]
    simp only [Option.map_some, Option.some.injEq, zero_add, hsum]
    have htq : (total : ℚ) ≠ 0 := by
      exact_mod_cast ht.ne'
    field_simp

/-- Witness for `prog_monotone_and_final`: total 2, reads of 1 then 1 byte. -/
theorem prog_monotone_and_final_witness :
    List.Pairwise (· ≤ ·)
        (prCallbacks 2 0 [⟨[7], none⟩, ⟨[9], some "EOF"⟩]) ∧
      (prCallbacks 2 0 [⟨[7], none⟩, ⟨[9], some "EOF"⟩]).getLast? = some 100 :=
  prog_monotone_and_final 2 [⟨[7], none⟩, ⟨[9], some "EOF"⟩]
    (by decide) (by decide)

/-- C6 fails as stated: the source computes `downloaded/total*100` with no
clamp, so a stream that delivers more bytes than the declared total produces
a value above 100. Here the declared total is 1 byte and one read delivers
2 bytes: the callback receives 200. -/
theorem prog_range_counterexample :
    prCallbacks 1 0 [⟨[7, 9], none⟩] = [200] ∧
      ¬ (∀ q ∈ prCallbacks 1 0 [⟨[7, 9], none⟩], 0 ≤ q ∧ q ≤ 100) := by
  have h : prCallbacks 1 0 [⟨[7, 9], none⟩] = [200] := by
    simp only [prCallbacks, prRun, prRead, List.filterMap_cons, List.filterMap_nil]
    norm_num
  refine ⟨h, fun hall => ?_⟩
  have h200 := hall 200 (by rw [h]; exact List.mem_singleton.mpr rfl)
  have hle : (200 : ℚ) ≤ 100 := h200.2
  norm_num at hle

/-- C6 amended: every callback value is nonnegative, and when the stream
delivers at most the declared (positive) total, every value lies in
[0, 100]. -/
theorem prog_range_amended
    (total : Int) (rs : List ReadResult) (ht : 0 < total)
    (hsum : lenSum rs ≤ total) :
    ∀ q ∈ prCallbacks total 0 rs, 0 ≤ q ∧ q ≤ 100 := by
  intro q hq
  rw [prCallbacks_eq_map total ht 0 rs] at hq
  rcases List.mem_map.mp hq with ⟨c, hc, rfl⟩
  rcases prCums_mem_bounds rs 0 c hc with ⟨h0, hle⟩
  have htq : (0 : ℚ) < (total : ℚ) := by exact_mod_cast ht
  have hcq : (0 : ℚ) ≤ (c : ℚ) := by exact_mod_cast h0
  have hcle : (c : ℚ) ≤ (total : ℚ) := by
    have : c ≤ total := by omega
    exact_mod_cast this
  constructor
  · positivity
  · have hdivle : (c : ℚ) / (total : ℚ) ≤ 1 := by
      rw [div_le_one htq]
      exact hcle
    calc (c : ℚ) / (total : ℚ) * 100 ≤ 1 * 100 :=
          mul_le_mul_of_nonneg_right hdivle (by norm_num)
      _ = 100 := by norm_num

/-- Witness for `prog_range_amended`: total 2, one read of 1 byte, whose
single callback value 50 lies in [0, 100]. -/
theorem prog_range_amended_witness : 0 ≤ (50 : ℚ) ∧ (50 : ℚ) ≤ 100 :=
  prog_range_amended 2 [⟨[7], none⟩] (by decide) (by decide) 50
    (by
      simp only [prCallbacks, prRun, prRead, List.filterMap_cons,
        List.filterMap_nil]
      norm_num)

/-- C7: with an unknown size (`total ≤ 0`, the `pr.total > 0` guard false),
the callback is never invoked, on any read of any stream. -/
theorem prog_unknown_total_no_callback
    (total : Int) (ht : total ≤ 0) (d : Int) (rs : List ReadResult) :
    prCallbacks total d rs = [] :=
  prCallbacks_eq_nil total (by omega) d rs

/-- Witness for `prog_unknown_total_no_callback` at total = -1. -/
theorem prog_unknown_total_no_callback_witness :
    prCallbacks (-1) 0 [⟨[7], none⟩, ⟨[], some "EOF"⟩] = [] :=
  prog_unknown_total_no_callback (-1) (by decide) 0
    [⟨[7], none⟩, ⟨[], some "EOF"⟩]

/-- C8: each read through the tap is a pure pass-through — the caller gets
exactly the bytes and the error of the underlying read, for every read of the
sequence, and the only state change is the counter growing by the number of
bytes actually read. -/
theorem prog_passthrough (total d : Int) (rs : List ReadResult) :
    (prRun total d rs).map Prod.fst = rs ∧
      ∀ r : ReadResult,
        (prRead total d r).1 = r ∧
          (prRead total d r).2.1 = d + r.data.length := by
  constructor
  · induction rs generalizing d with
    | nil => rfl
    | cons r rs ih => simp [prRun, prRead, ih]
  · intro r
    exact ⟨rfl, rfl⟩

/-- One call of the throttled progress closure (main.go:130-137): state is
the captured `lastUpdate` timestamp; a call at clock time `t` performs the
status edit only when `time.Since(lastUpdate) >= 2*time.Second`, and then
sets `lastUpdate` to the current time. Time is ℕ in seconds; `time.Since`
is truncated subtraction `t - last`. Returns (edit performed?, new
`lastUpdate`). -/
def throttleStep (last t : ℕ) : Bool × ℕ :=
  if 2 ≤ t - last then (true, t) else (false, last)

/-- The unconditional status edit at completion (main.go:147): the code
calls `updateMessage` directly, bypassing the gate, and does not touch
`lastUpdate`. -/
def finalFlush (last _t : ℕ) : Bool × ℕ := (true, last)

/-- Modelled from the spec: the flush the spec describes fires the sink
unconditionally AND resets the interval clock to the flush time. Kept for
comparison with `finalFlush`, the code's behaviour. -/
def specFlush (_last t : ℕ) : Bool × ℕ := (true, t)

/-- The clock times at which the sink (the status edit) actually fires,
over a sequence of gated calls at the given times. -/
def throttleFires (last : ℕ) : List ℕ → List ℕ
  | [] => []
  | t :: ts =>
    let s := throttleStep last t
    if s.1 then t :: throttleFires s.2 ts else throttleFires s.2 ts

theorem throttleFires_lb (ts : List ℕ) :
    ∀ (last : ℕ) (u : ℕ), u ∈ throttleFires last ts → last + 2 ≤ u := by
  induction ts with
  | nil => intro last u hu; simp [throttleFires] at hu
  | cons t ts ih =>
      intro last u hu
      simp only [throttleFires, throttleStep] at hu
      by_cases h : 2 ≤ t - last
      · simp only [if_pos h] at hu
        rcases List.mem_cons.mp hu with rfl | hu
        · omega
        · have := ih t u hu
          omega
      · simp only [if_neg h] at hu
        exact ih last u hu

/-- Successive actual sink invocations by the gate are at least 2 time-units
apart: the sink fires at most once within any window shorter than the
interval. -/
theorem throttleFires_pairwise (ts : List ℕ) :
    ∀ last : ℕ, (throttleFires last ts).Pairwise (fun a b => a + 2 ≤ b) := by
  induction ts with
  | nil => intro last; simp [throttleFires]
  | cons t ts ih =>
      intro last
      simp only [throttleFires, throttleStep]
      by_cases h : 2 ≤ t - last
      · simp only [if_pos h]
        exact List.Pairwise.cons (fun u hu => throttleFires_lb ts t u hu) (ih t)
      · simp only [if_neg h]
        exact ih last

/-- C5 fails as stated: the completion-time unconditional edit does not
reset the interval clock. With `lastUpdate = 0`, a flush at time 10 leaves
the clock at 0 (not 10), so a gated call at time 11 — only 1 unit after the
flush fired the sink — fires the sink again. -/
theorem throttle_flush_counterexample :
    (finalFlush 0 10).1 = true ∧
      (finalFlush 0 10).2 = 0 ∧
      (finalFlush 0 10).2 ≠ (specFlush 0 10).2 ∧
      (throttleStep (finalFlush 0 10).2 11).1 = true ∧
      11 - 10 < 2 := by
  decide

/-- C5 amended: gated calls fire the sink at most once per window shorter
than 2 time-units (consecutive actual invocations are ≥ 2 apart), and the
completion-time flush fires the sink unconditionally — but it leaves the
interval clock unchanged rather than resetting it (in the program no gated
call follows the flush, so the stale clock is never consulted again). -/
theorem throttle_amended (last t : ℕ) (ts : List ℕ) :
    (throttleFires last ts).Pairwise (fun a b => a + 2 ≤ b) ∧
      (finalFlush last t).1 = true ∧
      (finalFlush last t).2 = last :=
  ⟨throttleFires_pairwise ts last, rfl, rfl⟩

/-- The texts a status report can carry (the format strings of main.go,
with the float in the progress text carried as the exact ℚ value). -/
inductive StatusText
  | starting
  | failedInfo
  | failedDownload
  | tooLarge
  | failedTemp
  | failedSave
  | uploading
  | failedSend
  | success
  | progress (q : ℚ)
  deriving Repr, DecidableEq

/-- The observable actions `handleURL` can perform, in program order.
`sendStatus`/`sendError` create a new chat message (`bot.Send` of a
`NewMessage`); `editStatus` edits the one status message (`updateMessage`);
`uploadDoc` is `bot.Send` of the document; the rest are HTTP calls and
file-system actions. -/
inductive Event
  | sendStatus
  | sendError (t : StatusText)
  | headReq
  | getReq
  | createTemp
  | editStatus (t : StatusText)
  | seekTemp
  | uploadDoc
  | closeBody
  | closeTemp
  | removeTemp
  deriving Repr, DecidableEq

/-- Outcomes of every external effect of one `handleURL` run, fixed in
advance: which calls succeed, the HEAD-declared length, the successful
underlying reads during `io.Copy` as (bytes, clock time) pairs, the
initial `time.Now()`, and the outcome of each status-edit send (which the
code discards). -/
structure Env where
  sendStatusOk : Bool
  headOk : Bool
  contentLength : Int
  getOk : Bool
  createTempOk : Bool
  reads : List (ℕ × ℕ)
  copyOk : Bool
  uploadOk : Bool
  startTime : ℕ
  editOk : ℕ → Bool

/-- `updateMessage` (main.go:167-170): builds the edit and calls
`bot.Send`, discarding both the returned message and the error — the
outcome `_ok` of the send has no effect on what the caller observes. -/
def updateMessage (t : StatusText) (_ok : Bool) : List Event :=
  [Event.editStatus t]

/-- The status edits performed while `io.Copy` pulls the body through the
`ProgressReader` (main.go:126-140): per successful read of `n` bytes at
clock time `t`, `onProgress` runs when `total > 0`, and the throttled
closure edits the message when `t - last ≥ 2`, then sets `last := t`. -/
def downloadEdits (total : Int) (eo : ℕ → Bool) :
    Int → ℕ → List (ℕ × ℕ) → List Event
  | _, _, [] => []
  | d, last, (n, t) :: rs =>
    let d' := d + (n : Int)
    if total > 0 then
      if 2 ≤ t - last then
        updateMessage (StatusText.progress ((d' : ℚ) / (total : ℚ) * 100)) (eo t)
          ++ downloadEdits total eo d' t rs
      else downloadEdits total eo d' last rs
    else downloadEdits total eo d' last rs

/-- `MAX_TELEGRAM_FILE_SIZE` of main.go (the used variant never consults
it: the size check is commented out). -/
def MAX_TELEGRAM_FILE_SIZE : Int := 2000 * 1024 * 1024

/-- `MAX_TELEGRAM_FILE_SIZE` of the variant source file, where the size
check is active. -/
def MAX_TELEGRAM_FILE_SIZE_variant : Int := 50 * 1024 * 1024

/-- `handleURL` (main.go:80-165) as a trace of observable actions. Each
`if` mirrors an `err != nil` check; the `defer`red `resp.Body.Close()`,
`os.Remove(tempFile.Name())` and `tempFile.Close()` run in LIFO order at
every return after their registration point. The size-ceiling check
(main.go:98-103) is commented out in the source, so the declared length is
read but never gates anything. -/
def handleURL (env : Env) : List Event :=
  Event.sendStatus ::
  if env.sendStatusOk then
    Event.headReq ::
    if env.headOk then
      Event.getReq ::
      if env.getOk then
        Event.createTemp ::
        if env.createTempOk then
          downloadEdits env.contentLength env.editOk 0 env.startTime env.reads
            ++
            if env.copyOk then
              updateMessage StatusText.uploading (env.editOk 0)
                ++ Event.seekTemp :: Event.uploadDoc ::
                  if env.uploadOk then
                    updateMessage StatusText.success (env.editOk 1)
                      ++ [Event.closeTemp, Event.removeTemp, Event.closeBody]
                  else
                    updateMessage StatusText.failedSend (env.editOk 2)
                      ++ [Event.closeTemp, Event.removeTemp, Event.closeBody]
            else
              updateMessage StatusText.failedSave (env.editOk 3)
                ++ [Event.closeTemp, Event.removeTemp, Event.closeBody]
        else
          updateMessage StatusText.failedTemp (env.editOk 4) ++ [Event.closeBody]
      else updateMessage StatusText.failedDownload (env.editOk 5)
    else updateMessage StatusText.failedInfo (env.editOk 6)
  else []

/-- The variant's `handleURL` (variant:81-157): the size check against
`50*1024*1024` is active, and every error report goes through
`sendErrorMessage` — a `bot.Send` of a new message — instead of an edit. -/
def handleURL_variant (env : Env) : List Event :=
  Event.sendStatus ::
  if env.sendStatusOk then
    Event.headReq ::
    if env.headOk then
      if env.contentLength > MAX_TELEGRAM_FILE_SIZE_variant then
        [Event.sendError StatusText.tooLarge]
      else
        Event.getReq ::
        if env.getOk then
          Event.createTemp ::
          if env.createTempOk then
            downloadEdits env.contentLength env.editOk 0 env.startTime env.reads
              ++
              if env.copyOk then
                updateMessage StatusText.uploading (env.editOk 0)
                  ++ Event.seekTemp :: Event.uploadDoc ::
                    if env.uploadOk then
                      updateMessage StatusText.success (env.editOk 1)
                        ++ [Event.closeTemp, Event.removeTemp, Event.closeBody]
                    else
                      Event.sendError StatusText.failedSend
                        :: [Event.closeTemp, Event.removeTemp, Event.closeBody]
              else
                Event.sendError StatusText.failedSave
                  :: [Event.closeTemp, Event.removeTemp, Event.closeBody]
          else [Event.sendError StatusText.failedTemp, Event.closeBody]
        else [Event.sendError StatusText.failedDownload]
    else [Event.sendError StatusText.failedInfo]
  else []

/-- Events that create a new chat message (as opposed to editing one). -/
def isMsgSend : Event → Bool
  | Event.sendStatus => true
  | Event.sendError _ => true
  | _ => false

/-- Everything emitted while streaming the body is a progress edit of the
status message. -/
theorem downloadEdits_mem (total : Int) (eo : ℕ → Bool) :
    ∀ (rs : List (ℕ × ℕ)) (d : Int) (last : ℕ) (e : Event),
      e ∈ downloadEdits total eo d last rs →
        ∃ q, e = Event.editStatus (StatusText.progress q) := by
  intro rs
  induction rs with
  | nil => intro d last e he; simp [downloadEdits] at he
  | cons p rs ih =>
      intro d last e he
      obtain ⟨n, t⟩ := p
      simp only [downloadEdits, updateMessage] at he
      by_cases h1 : total > 0
      · simp only [if_pos h1] at he
        by_cases h2 : 2 ≤ t - last
        · simp only [if_pos h2, List.cons_append, List.nil_append,
            List.mem_cons] at he
          rcases he with rfl | he
          · exact ⟨_, rfl⟩
          · exact ih _ _ _ he
        · simp only [if_neg h2] at he
          exact ih _ _ _ he
      · simp only [if_neg h1] at he
        exact ih _ _ _ he

theorem downloadEdits_count_removeTemp (total : Int) (eo : ℕ → Bool)
    (rs : List (ℕ × ℕ)) (d : Int) (last : ℕ) :
    (downloadEdits total eo d last rs).count Event.removeTemp = 0 :=
  List.count_eq_zero.mpr fun h => by
    rcases downloadEdits_mem total eo rs d last _ h with ⟨q, hq⟩
    cases hq

theorem downloadEdits_count_createTemp (total : Int) (eo : ℕ → Bool)
    (rs : List (ℕ × ℕ)) (d : Int) (last : ℕ) :
    (downloadEdits total eo d last rs).count Event.createTemp = 0 :=
  List.count_eq_zero.mpr fun h => by
    rcases downloadEdits_mem total eo rs d last _ h with ⟨q, hq⟩
    cases hq

theorem downloadEdits_filter_isMsgSend (total : Int) (eo : ℕ → Bool)
    (rs : List (ℕ × ℕ)) (d : Int) (last : ℕ) :
    (downloadEdits total eo d last rs).filter isMsgSend = [] := by
  rw [List.filter_eq_nil_iff]
  intro e he
  rcases downloadEdits_mem total eo rs d last e he with ⟨q, rfl⟩
  simp [isMsgSend]

/-- The edits emitted while streaming do not depend on the outcomes of the
(discarded) edit sends. -/
theorem downloadEdits_eo_irrel (total : Int) (f g : ℕ → Bool) :
    ∀ (rs : List (ℕ × ℕ)) (d : Int) (last : ℕ),
      downloadEdits total f d last rs = downloadEdits total g d last rs := by
  intro rs
  induction rs with
  | nil => intro d last; rfl
  | cons p rs ih =>
      intro d last
      obtain ⟨n, t⟩ := p
      simp only [downloadEdits, updateMessage]
      by_cases h1 : total > 0
      · simp only [if_pos h1]
        by_cases h2 : 2 ≤ t - last
        · simp only [if_pos h2, ih]
        · simp only [if_neg h2, ih]
      · simp only [if_neg h1, ih]

/-- C2: on every run, the staged temporary file is removed exactly once
when one was acquired (`os.CreateTemp` was reached and succeeded) — on the
success path and on both later failure paths alike — and no removal is
attempted on runs where no staged file was acquired. -/
theorem staged_file_removed_exactly_once (env : Env) :
    (handleURL env).count Event.removeTemp
      = if env.sendStatusOk && env.headOk && env.getOk && env.createTempOk
        then 1 else 0 := by
  obtain ⟨so, ho, cl, go, cto, rds, cpo, upo, st, eo⟩ := env
  cases so <;> cases ho <;> cases go <;> cases cto <;> cases cpo <;>
      cases upo <;>
    simp [handleURL, updateMessage, List.count_cons, List.count_append,
      downloadEdits_count_removeTemp, downloadEdits_count_createTemp]

/-- C3: exactly one chat message is created over the whole run — the
initial status message — and it is the first action; every later status
report (progress tick, each terminal error, the success report) is an edit
of it, never a newly sent message. -/
theorem single_status_message (env : Env) :
    (handleURL env).filter isMsgSend = [Event.sendStatus] := by
  obtain ⟨so, ho, cl, go, cto, rds, cpo, upo, st, eo⟩ := env
  cases so <;> cases ho <;> cases go <;> cases cto <;> cases cpo <;>
      cases upo <;>
    simp [handleURL, updateMessage, isMsgSend, List.filter_append,
      downloadEdits_filter_isMsgSend]

/-- C9: a failed status edit changes nothing — `updateMessage` discards the
send's outcome, and the whole run's trace is the same whatever the edit
outcomes are. -/
theorem edit_failure_swallowed (env : Env) (f g : ℕ → Bool)
    (t : StatusText) (a b : Bool) :
    updateMessage t a = updateMessage t b ∧
      handleURL { env with editOk := f }
        = handleURL { env with editOk := g } := by
  refine ⟨rfl, ?_⟩
  obtain ⟨so, ho, cl, go, cto, rds, cpo, upo, st, eo⟩ := env
  simp only [handleURL, updateMessage, downloadEdits_eo_irrel cl f g]

/-- C10: when sending the initial status message fails, the task returns at
once — no HEAD probe, no body fetch, no temporary file, no further message
of any kind. -/
theorem initial_send_failure_halts (env : Env)
    (h : env.sendStatusOk = false) :
    handleURL env = [Event.sendStatus] := by
  simp [handleURL, h]

/-- Witness for `initial_send_failure_halts`. -/
theorem initial_send_failure_halts_witness :
    handleURL ⟨false, true, 10, true, true, [], true, true, 0, fun _ => true⟩
      = [Event.sendStatus] :=
  initial_send_failure_halts _ rfl

/-- A run whose HEAD probe declares one byte more than the configured
ceiling and in which every external call succeeds. -/
def envOversized : Env :=
  { sendStatusOk := true
    headOk := true
    contentLength := MAX_TELEGRAM_FILE_SIZE + 1
    getOk := true
    createTempOk := true
    reads := []
    copyOk := true
    uploadOk := true
    startTime := 0
    editOk := fun _ => true }

/-- C1 fails on main.go as stated: the size check (main.go:98-103) is
commented out, so a request whose declared length exceeds the ceiling is
not rejected — the body fetch (GET) is issued and no too-large report of
any kind is produced. -/
theorem size_gate_counterexample :
    MAX_TELEGRAM_FILE_SIZE < envOversized.contentLength ∧
      Event.getReq ∈ handleURL envOversized ∧
      Event.editStatus StatusText.tooLarge ∉ handleURL envOversized ∧
      ∀ t : StatusText, Event.sendError t ∉ handleURL envOversized := by
  have htrace : handleURL envOversized =
      [Event.sendStatus, Event.headReq, Event.getReq, Event.createTemp,
        Event.editStatus StatusText.uploading, Event.seekTemp,
        Event.uploadDoc, Event.editStatus StatusText.success,
        Event.closeTemp, Event.removeTemp, Event.closeBody] := by
    simp [handleURL, envOversized, downloadEdits, updateMessage]
  refine ⟨?_, ?_, ?_, ?_⟩
  · norm_num [envOversized, MAX_TELEGRAM_FILE_SIZE]
  · rw [htrace]; simp
  · rw [htrace]; simp
  · intro t; rw [htrace]; simp

/-- C1 amended: in main.go the gate is disabled — every request whose
initial status send and probe succeed proceeds to the body fetch,
whatever the declared length; in the variant source file the gate is
active — a declared length above its 50 MiB ceiling is reported with a
too-large message (sent as a new message there) and the body fetch never
happens. -/
theorem size_gate_amended (env venv : Env)
    (h1 : env.sendStatusOk = true) (h2 : env.headOk = true)
    (hv1 : venv.sendStatusOk = true) (hv2 : venv.headOk = true)
    (hv3 : venv.contentLength > MAX_TELEGRAM_FILE_SIZE_variant) :
    Event.getReq ∈ handleURL env ∧
      handleURL_variant venv =
        [Event.sendStatus, Event.headReq,
          Event.sendError StatusText.tooLarge] := by
  constructor
  · simp [handleURL, h1, h2]
  · simp [handleURL_variant, hv1, hv2, if_pos hv3]

/-- Witness for `size_gate_amended`: main.go issues the GET even at one
byte over its own ceiling; the variant rejects one byte over its ceiling
without a GET. -/
theorem size_gate_amended_witness :
    Event.getReq ∈ handleURL envOversized ∧
      handleURL_variant
          ⟨true, true, MAX_TELEGRAM_FILE_SIZE_variant + 1, true, true, [],
            true, true, 0, fun _ => true⟩ =
        [Event.sendStatus, Event.headReq,
          Event.sendError StatusText.tooLarge] :=
  size_gate_amended envOversized
    ⟨true, true, MAX_TELEGRAM_FILE_SIZE_variant + 1, true, true, [],
      true, true, 0, fun _ => true⟩
    rfl rfl rfl rfl (by norm_num)
